import Mathlib

/-!
# Verification of the open-quill evidence pipeline

Shallow embedding of the content-extraction / relevance-ranking pipeline
(`findRelevantQuotesAndStats` and its helpers) and of the humanities research
aggregator (`getRelevantHumanitiesArticles`, `removeDuplicatePapers`,
`extractHumanitiesFallbackTopics`).

External capabilities (the hosted completion model, `JSON.parse`) are modelled
as oracle parameters: a completion call is a value of type `Except Unit String`
(transport failure or reply text), and `JSON.parse` on an extracted span is an
abstract partial parse function.  Scores are embedded as rationals `ℚ`
(JavaScript numbers restricted to the exact arithmetic the pipeline performs;
`NaN` is not representable, which only strengthens the "falsy" analysis since
`NaN` is falsy like `0`).  JavaScript's `Array.prototype.sort` is stable
(ES2019), so the comparator `(a, b) => b.relevanceScore - a.relevanceScore`
denotes the unique stable non-increasing reordering by score; it is embedded
as `List.insertionSort` with the relation `scoreGE`, which computes exactly
that reordering.
-/

set_option autoImplicit false

/-! ## Character helpers (ASCII classes used by the source's regexes) -/

/-- JavaScript regex `\d` (ASCII digits). -/
def isDigitCh (c : Char) : Bool := '0' ≤ c && c ≤ '9'

/-- ASCII lower-case letter, `[a-z]`. -/
def isLowerCh (c : Char) : Bool := 'a' ≤ c && c ≤ 'z'

/-- ASCII upper-case letter, `[A-Z]`. -/
def isUpperCh (c : Char) : Bool := 'A' ≤ c && c ≤ 'Z'

/-- JavaScript regex `\w`: ASCII letters, digits and underscore. -/
def isWordCh (c : Char) : Bool := isDigitCh c || isLowerCh c || isUpperCh c || c = '_'

/-- JavaScript regex `\s`, restricted to the classical whitespace characters
(space, tab, newline, carriage return) that occur in text handled here. -/
def isSpaceCh (c : Char) : Bool := c = ' ' || c = '\t' || c = '\n' || c = '\r'

/-- The `{` character (written via its code point). -/
def lbrace : Char := Char.ofNat 123

/-- The `}` character (written via its code point). -/
def rbrace : Char := Char.ofNat 125

/-- `String.prototype.trim`, on the whitespace class above. -/
def jsTrimList (cs : List Char) : List Char :=
  ((cs.dropWhile isSpaceCh).reverse.dropWhile isSpaceCh).reverse

/-! ## Data model -/

/-- Whether an extracted item is a statistic or a quote (the `type` tag added
by `scoreContentRelevance`). -/
inductive EvidenceKind where
  | statistic
  | quote
deriving DecidableEq, Repr

/-- One candidate produced by extraction (`{text, context, source, position}`). -/
structure EvidenceItem where
  text : String
  context : String
  source : String
  position : String
deriving DecidableEq, Repr

/-- An evidence candidate together with its `type` tag. -/
structure TypedItem extends EvidenceItem where
  type : EvidenceKind
deriving DecidableEq, Repr

/-- A scored candidate: the candidate plus `relevanceScore`/`relevanceReason`. -/
structure ScoredItem extends TypedItem where
  relevanceScore : ℚ
  relevanceReason : String
deriving DecidableEq, Repr

/-- The extractor's output `{statistics: [...], quotes: [...]}`. -/
structure ExtractedContent where
  statistics : List EvidenceItem
  quotes : List EvidenceItem
deriving DecidableEq, Repr

/-- The user-intent summary returned by `analyzeUserNeeds`. -/
structure UserIntent where
  mainArgument : String
  keyTopics : List String
  evidenceNeeds : List String
  gaps : List String
  audience : String
deriving DecidableEq, Repr

/-! ## Ranking & filtering

The inline step of `findRelevantQuotesAndStats`:

    scoredContent.statistics
      .filter(stat => stat.relevanceScore >= relevanceThreshold)
      .sort((a, b) => b.relevanceScore - a.relevanceScore)
      .slice(0, maxStats)
-/

/-- The descending-score relation realised by the comparator
`(a, b) => b.relevanceScore - a.relevanceScore`. -/
def scoreGE (a b : ScoredItem) : Prop := b.relevanceScore ≤ a.relevanceScore

instance : DecidableRel scoreGE := fun a b =>
  inferInstanceAs (Decidable (b.relevanceScore ≤ a.relevanceScore))

instance : IsTotal ScoredItem scoreGE :=
  ⟨fun a b => le_total b.relevanceScore a.relevanceScore⟩

instance : IsTrans ScoredItem scoreGE :=
  ⟨fun _ _ _ h h' => le_trans h' h⟩

/-- The Boolean threshold filter `item.relevanceScore >= relevanceThreshold`. -/
def passesThreshold (t : ℚ) (it : ScoredItem) : Bool := decide (t ≤ it.relevanceScore)

/-- Filter by threshold, stable-sort descending by score, truncate: the
ranking-and-filtering step applied to one kind of candidates. -/
def rankAndFilter (items : List ScoredItem) (t : ℚ) (maxItems : ℕ) : List ScoredItem :=
  (List.insertionSort scoreGE (items.filter (passesThreshold t))).take maxItems

/-! ## "First JSON object in free text" span extraction

`content.match(/\{[\s\S]*\}/)` (greedy) takes the substring from the first
`{` to the last `}` (provided the latter comes after the former);
`content.match(/\{[\s\S]*?\}/)` (lazy) takes the substring from the first `{`
to the first `}` after it.  `content.match(/\[.*?\]/s)` is the lazy variant
for brackets.  All return `null` when no such span exists. -/

/-- Greedy match `/\{[\s\S]*\}/` over a character list. -/
def greedyBraceSpanList (cs : List Char) : Option (List Char) :=
  match cs.findIdx? (fun c => c == lbrace), cs.reverse.findIdx? (fun c => c == rbrace) with
  | some i, some jr =>
    let j := cs.length - 1 - jr
    if i < j then some ((cs.drop i).take (j - i + 1)) else none
  | _, _ => none

/-- Greedy match `/\{[\s\S]*\}/` on a string. -/
def greedyBraceSpan (s : String) : Option String :=
  (greedyBraceSpanList s.data).map String.mk

/-- Lazy match, from the first occurrence of `opSym` to the first occurrence of
`clSym` after it (used for `/\{[\s\S]*?\}/` and `/\[.*?\]/s`). -/
def lazySpanList (opSym clSym : Char) (cs : List Char) : Option (List Char) :=
  match cs.findIdx? (fun c => c == opSym) with
  | none => none
  | some i =>
    match (cs.drop (i + 1)).findIdx? (fun c => c == clSym) with
    | none => none
    | some k => some ((cs.drop i).take (k + 2))

/-- Lazy match `/\{[\s\S]*?\}/` on a string. -/
def lazyBraceSpan (s : String) : Option String :=
  (lazySpanList lbrace rbrace s.data).map String.mk

/-- Lazy match `/\[.*?\]/s` on a string. -/
def lazyBracketSpan (s : String) : Option String :=
  (lazySpanList '[' ']' s.data).map String.mk

/-! ## User-intent analysis (`analyzeUserNeeds`)

The completion reply is scanned for `/\{[\s\S]*\}/`; if no span is found the
ternary's else-branch returns the first placeholder, and if `JSON.parse`
throws on the span the `catch` returns the second placeholder. -/

/-- Placeholder returned when the reply contains no brace span. -/
def intentNoJson : UserIntent :=
  { mainArgument := "Could not determine main argument"
    keyTopics := ["general"]
    evidenceNeeds := ["supporting data"]
    gaps := ["needs more evidence"]
    audience := "general" }

/-- Placeholder returned from the `catch` when `JSON.parse` fails on the span. -/
def intentBadJson : UserIntent :=
  { mainArgument := "Analysis unavailable"
    keyTopics := ["general"]
    evidenceNeeds := ["supporting data"]
    gaps := ["needs more evidence"]
    audience := "general" }

/-- `analyzeUserNeeds`, given the completion reply text and an abstract
`JSON.parse` for the extracted span. -/
def analyzeUserNeeds (parseIntent : String → Option UserIntent) (reply : String) :
    UserIntent :=
  match greedyBraceSpan reply with
  | none => intentNoJson
  | some s =>
    match parseIntent s with
    | some u => u
    | none => intentBadJson

/-! ## Pattern-based fallback extraction (`extractFallback`)

Each regex of the source is embedded as a matcher that, at a given position,
returns the number of characters consumed by the leftmost match starting
there (`none` if no match starts there).  `matchAll` semantics are recovered
by a scanner that advances one character on failure and past the whole match
on success.  Backtracking of the optional fraction group `(\.\d+)?` is the
only backtracking these regexes can need (the alternations are anchored at a
single position and start with distinct letters), and is handled by trying
the with-fraction parse first and the without-fraction parse second. -/

/-- Length of the ASCII digit run at the head, regex `\d*`. -/
def digitSpan (s : List Char) : ℕ := (s.takeWhile isDigitCh).length

/-- Length of the whitespace run at the head, regex `\s*`. -/
def spaceSpan (s : List Char) : ℕ := (s.takeWhile isSpaceCh).length

/-- Candidate consumed lengths for `\d+(\.\d+)?` at the head, in the order a
backtracking engine tries them (greedy with-fraction first). -/
def numConsumes (s : List Char) : List ℕ :=
  let d := digitSpan s
  if d = 0 then []
  else
    match s.drop d with
    | c :: r2 =>
      if c = '.' then
        let e := digitSpan r2
        if e = 0 then [d] else [d + 1 + e, d]
      else [d]
    | [] => [d]

/-- Try each candidate prefix length in order, continuing with `f`; the first
continuation that succeeds wins (regex backtracking order). -/
def tryConsumes (f : ℕ → Option ℕ) : List ℕ → Option ℕ
  | [] => none
  | k :: ks =>
    match f k with
    | some n => some n
    | none => tryConsumes f ks

/-- Case-insensitive literal word match at the head (regex `/i` flag). -/
def matchWordCI (w s : List Char) : Bool :=
  (s.take w.length).map Char.toLower == w

/-- First alternative of a word alternation matching at the head, returning
its length (alternatives start pairwise differently, so no backtracking). -/
def firstWordCI (ws : List (List Char)) (s : List Char) : Option ℕ :=
  match ws with
  | [] => none
  | w :: rest => if matchWordCI w s then some w.length else firstWordCI rest s

/-- `/\d+(\.\d+)?%/` at the head. -/
def percentLen (s : List Char) : Option ℕ :=
  tryConsumes
    (fun k =>
      match s.drop k with
      | c :: _ => if c = '%' then some (k + 1) else none
      | [] => none)
    (numConsumes s)

/-- The magnitude words of `/\$\d+(\.\d+)?\s*(million|billion|thousand)/gi`. -/
def magnitudeWords3 : List (List Char) := ["million".data, "billion".data, "thousand".data]

/-- The magnitude words of `/\d+(\.\d+)?\s*(million|billion|thousand|percent)/gi`. -/
def magnitudeWords4 : List (List Char) :=
  ["million".data, "billion".data, "thousand".data, "percent".data]

/-- `/\$\d+(\.\d+)?\s*(million|billion|thousand)/i` at the head. -/
def currencyLen (s : List Char) : Option ℕ :=
  match s with
  | c :: rest =>
    if c = '$' then
      tryConsumes
        (fun k =>
          let r := rest.drop k
          let sp := spaceSpan r
          match firstWordCI magnitudeWords3 (r.drop sp) with
          | some wl => some (1 + k + sp + wl)
          | none => none)
        (numConsumes rest)
    else none
  | [] => none

/-- `/\d+(\.\d+)?\s*(million|billion|thousand|percent)/i` at the head. -/
def magnitudeLen (s : List Char) : Option ℕ :=
  tryConsumes
    (fun k =>
      let r := s.drop k
      let sp := spaceSpan r
      match firstWordCI magnitudeWords4 (r.drop sp) with
      | some wl => some (k + sp + wl)
      | none => none)
    (numConsumes s)

/-- `/(\d+(\.\d+)?)\s*(out of|in)\s*(\d+)/i` at the head. -/
def outOfLen (s : List Char) : Option ℕ :=
  tryConsumes
    (fun k =>
      let r := s.drop k
      let sp := spaceSpan r
      match firstWordCI ["out of".data, "in".data] (r.drop sp) with
      | some wl =>
        let r2 := r.drop (sp + wl)
        let sp2 := spaceSpan r2
        let d2 := digitSpan (r2.drop sp2)
        if d2 = 0 then none else some (k + sp + wl + sp2 + d2)
      | none => none)
    (numConsumes s)

/-- `/"([^"]{20,300})"/` at the head: an opening quote, 20–300 non-quote
characters, a closing quote. -/
def quoteLen (s : List Char) : Option ℕ :=
  match s with
  | c :: rest =>
    if c = '"' then
      let body := rest.takeWhile (fun d => !(d == '"'))
      match rest.drop body.length with
      | d :: _ =>
        if d = '"' && 20 ≤ body.length && body.length ≤ 300 then some (body.length + 2)
        else none
      | [] => none
    else none
  | [] => none

/-- `String.prototype.matchAll` with a `/g` regex given by the positional
matcher `m`: scan left to right, record `(index, length)` of each match,
resume after a match (or one character later after a failed position). -/
def scanWith (m : List Char → Option ℕ) : ℕ → List Char → List (ℕ × ℕ)
  | _, [] => []
  | i, c :: cs =>
    match m (c :: cs) with
    | some k => (i, k) :: scanWith m (i + k) (cs.drop (k - 1))
    | none => scanWith m (i + 1) cs
termination_by _ s => s.length
decreasing_by
  · simp only [List.length_cons, List.length_drop]
    omega
  · simp only [List.length_cons]
    omega

/-- The `±100`-character context window around a match, trimmed
(`sourceText.substring(Math.max(0, index - 100), Math.min(length, end + 100)).trim()`). -/
def contextWindow (src : List Char) (idx len : ℕ) : String :=
  let start := idx - 100
  let stop := min src.length (idx + len + 100)
  String.mk (jsTrimList ((src.drop start).take (stop - start)))

/-- Statistic record pushed by the fallback's statistics loop. -/
def mkStatItem (src : List Char) (p : ℕ × ℕ) : EvidenceItem :=
  { text := String.mk ((src.drop p.1).take p.2)
    context := contextWindow src p.1 p.2
    source := "Pattern extraction"
    position := "Character " ++ toString p.1 }

/-- Quote record pushed by the fallback's quote loop: the `text` is capture
group 1 (without the surrounding quotes), the context window spans the full
match. -/
def mkQuoteItem (src : List Char) (p : ℕ × ℕ) : EvidenceItem :=
  { text := String.mk ((src.drop (p.1 + 1)).take (p.2 - 2))
    context := contextWindow src p.1 p.2
    source := "Quotation marks"
    position := "Character " ++ toString p.1 }

/-- `extractFallback`: regex-based extraction, applied pattern by pattern in
the order of the source's `statPatterns` array, then the quote pattern. -/
def extractFallback (sourceText : String) : ExtractedContent :=
  let src := sourceText.data
  { statistics :=
      (scanWith percentLen 0 src).map (mkStatItem src)
        ++ (scanWith currencyLen 0 src).map (mkStatItem src)
        ++ (scanWith magnitudeLen 0 src).map (mkStatItem src)
        ++ (scanWith outOfLen 0 src).map (mkStatItem src)
    quotes := (scanWith quoteLen 0 src).map (mkQuoteItem src) }

/-- `extractFromSource`, given the completion reply and an abstract
`JSON.parse`: no brace span in the reply yields empty lists (the ternary's
else-branch); a span that fails to parse throws, and the `catch` falls back
to `extractFallback` on the source text. -/
def extractFromSource (parseExtract : String → Option ExtractedContent)
    (reply : String) (sourceText : String) : ExtractedContent :=
  match greedyBraceSpan reply with
  | none => { statistics := [], quotes := [] }
  | some s =>
    match parseExtract s with
    | some ec => ec
    | none => extractFallback sourceText

/-- Decides whether the text contains a digit immediately followed by `%`
(the simplest witness that `/\d+(\.\d+)?%/` has a match). -/
def hasPercentPairB : List Char → Bool
  | c :: d :: rest => (isDigitCh c && d = '%') || hasPercentPairB (d :: rest)
  | _ => false

/-! ## Relevance scoring (`scoreIndividualItem`, `scoreContentRelevance`)

The per-item completion call is an oracle `TypedItem → Except Unit String`
(`.error` = the call threw; `.ok` = the reply text).  The parsed reply
`{"score": ..., "reason": ...}` is a record whose fields may be absent;
JavaScript's `result.score || 0.5` treats an explicit `0` (and `NaN`) as
falsy, and `result.reason || ...` treats `""` as falsy. -/

/-- The parsed scoring reply; `none` fields model absent properties. -/
structure ScoreReply where
  score : Option ℚ
  reason : Option String
deriving DecidableEq, Repr

/-- `result.score || 0.5` (0 is falsy in JavaScript). -/
def jsOrScore : Option ℚ → ℚ
  | some s => if s = 0 then mkRat 1 2 else s
  | none => mkRat 1 2

/-- `result.reason || 'No specific reason provided'` ("" is falsy). -/
def jsOrReason : Option String → String
  | some r => if r = "" then "No specific reason provided" else r
  | none => "No specific reason provided"

/-- The `{...item, relevanceScore: 0.5, relevanceReason: 'Could not determine
relevance'}` default returned after the `try` block (no span, parse failure,
or a thrown call). -/
def defaultScored (it : TypedItem) : ScoredItem :=
  { toTypedItem := it
    relevanceScore := mkRat 1 2
    relevanceReason := "Could not determine relevance" }

/-- `scoreIndividualItem`: one isolated scoring call with its own
`try`/`catch`; the reply is scanned with the lazy `/\{[\s\S]*?\}/`. -/
def scoreIndividualItem (score : TypedItem → Except Unit String)
    (parseScore : String → Option ScoreReply) (it : TypedItem) : ScoredItem :=
  match score it with
  | Except.error _ => defaultScored it
  | Except.ok content =>
    match lazyBraceSpan content with
    | none => defaultScored it
    | some s =>
      match parseScore s with
      | none => defaultScored it
      | some r =>
        { toTypedItem := it
          relevanceScore := jsOrScore r.score
          relevanceReason := jsOrReason r.reason }

/-- `scoreContentRelevance`: tag the statistics and quotes, score every item
(the `Promise.all` fan-out preserves order and count), split back by tag. -/
def scoreContentRelevance (score : TypedItem → Except Unit String)
    (parseScore : String → Option ScoreReply) (ec : ExtractedContent) :
    List ScoredItem × List ScoredItem :=
  let allItems :=
    ec.statistics.map (fun it => TypedItem.mk it EvidenceKind.statistic)
      ++ ec.quotes.map (fun it => TypedItem.mk it EvidenceKind.quote)
  let scored := allItems.map (scoreIndividualItem score parseScore)
  (scored.filter (fun it => it.type == EvidenceKind.statistic),
    scored.filter (fun it => it.type == EvidenceKind.quote))

/-! ## The pipeline (`findRelevantQuotesAndStats`)

The entry point is modelled after reading succeeded: `sourceText` is the
normalised source blob, and every completion call is an oracle.  The
environment-variable and argument guards, the `sourceInfo` metadata block
(filename, counts) and the outer error wrapper are descriptive glue outside
the claims and are not modelled. -/

/-- The recognised options with their defaults
(`maxStats = 5`, `maxQuotes = 5`, `relevanceThreshold = 0.6`). -/
structure PipelineOptions where
  maxStats : ℕ := 5
  maxQuotes : ℕ := 5
  relevanceThreshold : ℚ := mkRat 3 5
deriving DecidableEq, Repr

/-- The oracles for the external completion capability and `JSON.parse`. -/
structure Oracles where
  analyzeReply : String
  parseIntent : String → Option UserIntent
  extractReply : String
  parseExtract : String → Option ExtractedContent
  scoreReply : TypedItem → Except Unit String
  parseScore : String → Option ScoreReply
  recommendReply : String

/-- The result returned to the caller (the `message` field only exists on the
short-circuit result; `recommendations` only on the normal result). -/
structure EvidenceResult where
  userContext : UserIntent
  statistics : List ScoredItem
  quotes : List ScoredItem
  message : Option String
  recommendations : Option String
deriving DecidableEq, Repr

/-- `generateUsageRecommendations`: a fixed guidance string when nothing was
retained (no completion call), otherwise the completion reply. -/
def generateUsageRecommendations (recommendReply : String)
    (statistics quotes : List ScoredItem) : String :=
  if statistics = [] ∧ quotes = [] then
    "No relevant statistics or quotes found. Consider using different source material or refining your search terms."
  else recommendReply

/-- `findRelevantQuotesAndStats` after the source file has been read:
analyze, extract, short-circuit on no candidates, otherwise score, then
filter/sort/truncate each kind and generate recommendations. -/
def findRelevantQuotesAndStats (o : Oracles) (sourceText : String)
    (opts : PipelineOptions) : EvidenceResult :=
  let userContext := analyzeUserNeeds o.parseIntent o.analyzeReply
  let extractedContent := extractFromSource o.parseExtract o.extractReply sourceText
  if extractedContent.statistics = [] ∧ extractedContent.quotes = [] then
    { userContext := userContext
      statistics := []
      quotes := []
      message := some "No statistics or quotes were found in the source file."
      recommendations := none }
  else
    let scoredContent := scoreContentRelevance o.scoreReply o.parseScore extractedContent
    let relevantStats := rankAndFilter scoredContent.1 opts.relevanceThreshold opts.maxStats
    let relevantQuotes := rankAndFilter scoredContent.2 opts.relevanceThreshold opts.maxQuotes
    { userContext := userContext
      statistics := relevantStats
      quotes := relevantQuotes
      message := none
      recommendations :=
        some (generateUsageRecommendations o.recommendReply relevantStats relevantQuotes) }

/-! ## Research papers and deduplication (`removeDuplicatePapers`) -/

/-- A research paper candidate as aggregated from the search sources
(metadata fields not inspected by deduplication are carried verbatim;
source-specific extras such as subjects or pdf links are omitted). -/
structure Paper where
  title : String
  authors : String
  abstract : String
  url : String
  doi : String
  source : String
deriving DecidableEq, Repr

/-- `paper.title.toLowerCase().replace(/[^\w\s]/g, '').trim()`. -/
def normalizeTitle (t : String) : String :=
  String.mk (jsTrimList ((t.data.map Char.toLower).filter (fun c => isWordCh c || isSpaceCh c)))

/-- The loop of `removeDuplicatePapers`, carrying the `seenTitles` and
`seenDOIs` sets (as lists): a non-empty already-seen DOI or an already-seen
normalized title skips the paper; otherwise the keys are recorded (the DOI
only when truthy) and the paper is kept. -/
def removeDuplicatePapersAux : List Paper → List String → List String → List Paper
  | [], _, _ => []
  | p :: ps, seenTitles, seenDOIs =>
    let normalizedTitle := normalizeTitle p.title
    if p.doi != "" && seenDOIs.contains p.doi then
      removeDuplicatePapersAux ps seenTitles seenDOIs
    else if seenTitles.contains normalizedTitle then
      removeDuplicatePapersAux ps seenTitles seenDOIs
    else
      p :: removeDuplicatePapersAux ps (normalizedTitle :: seenTitles)
        (if p.doi != "" then p.doi :: seenDOIs else seenDOIs)

/-- `removeDuplicatePapers`. -/
def removeDuplicatePapers (papers : List Paper) : List Paper :=
  removeDuplicatePapersAux papers [] []

/-- `p` clashes with an already-retained `q`: same non-empty DOI or same
normalized title. -/
def conflictB (q p : Paper) : Bool :=
  (p.doi != "" && q.doi == p.doi) || normalizeTitle q.title == normalizeTitle p.title

/-- Reference form of the dedup loop, carrying the list of retained papers
instead of the two key sets. -/
def dedupRef : List Paper → List Paper → List Paper
  | _, [] => []
  | R, p :: ps =>
    if R.any (fun q => conflictB q p) then dedupRef R ps
    else p :: dedupRef (R ++ [p]) ps

/-! ## Humanities topic extraction (`getRelevantHumanitiesArticles`, step 1) -/

/-- The static keyword list of `extractHumanitiesFallbackTopics`. -/
def humanitiesTerms : List String :=
  ["narrative theory", "postcolonial literature", "modernism", "romanticism",
    "feminist criticism", "comparative literature", "literary theory",
    "canon formation", "genre studies", "poetry analysis",
    "phenomenology", "existentialism", "ethics", "epistemology", "metaphysics",
    "political philosophy", "continental philosophy", "analytic philosophy",
    "moral philosophy", "philosophy of mind",
    "social history", "cultural history", "intellectual history", "microhistory",
    "oral history", "historiography", "medieval history", "ancient history",
    "modern history", "gender history",
    "cultural identity", "postmodernism", "globalization", "cultural theory",
    "media studies", "popular culture", "digital humanities", "memory studies",
    "diaspora studies", "queer theory",
    "sociolinguistics", "historical linguistics", "discourse analysis",
    "pragmatics", "semantics", "language contact", "morphology", "phonology",
    "syntax", "language acquisition",
    "comparative religion", "theology", "religious studies", "biblical studies",
    "islamic studies", "buddhist studies", "religious philosophy", "sacred texts",
    "ritual studies", "mysticism",
    "renaissance art", "contemporary art", "art criticism", "visual culture",
    "iconography", "museum studies", "art theory", "aesthetic theory",
    "public art", "digital art"]

/-- `String.prototype.includes` (substring test). -/
def containsSub (hay needle : List Char) : Bool :=
  match hay with
  | [] => needle.isEmpty
  | c :: t => needle.isPrefixOf (c :: t) || containsSub t needle

/-- Word boundary `\b` after a run: end of input or a non-word character. -/
def wordEdgeAfter (l : List Char) : Bool :=
  match l with
  | [] => true
  | d :: _ => !isWordCh d

/-- Scanner for `/\b[A-Z][a-z]{4,}\b/g`: an upper-case letter at a word
boundary followed by a maximal lower-case run of length at least 4 ending at
a word boundary.  The Boolean argument records whether the previous character
was a word character. -/
def capWordScan : Bool → List Char → List String
  | _, [] => []
  | prevW, c :: cs =>
    if !prevW && isUpperCh c then
      let run := cs.takeWhile isLowerCh
      if 4 ≤ run.length && wordEdgeAfter (cs.drop run.length) then
        String.mk (c :: run) :: capWordScan true (cs.drop run.length)
      else capWordScan true cs
    else capWordScan (isWordCh c) cs
termination_by _ s => s.length
decreasing_by
  · simp only [List.length_cons, List.length_drop]
    omega
  · simp only [List.length_cons]
    omega
  · simp only [List.length_cons]
    omega

/-- `[...new Set(xs)]`: deduplication keeping first occurrences in order. -/
def dedupFirst : List String → List String
  | [] => []
  | x :: xs => x :: dedupFirst (xs.filter (fun y => !(y == x)))
termination_by l => l.length
decreasing_by
  simp only [List.length_cons]
  exact Nat.lt_succ_of_le (xs.length_filter_le _)

/-- `extractHumanitiesFallbackTopics`: static keywords found in the lowered
text, then up to 3 deduplicated lowered capitalized words, capped at 5. -/
def extractHumanitiesFallbackTopics (text : String) : List String :=
  let lowercaseText := text.data.map Char.toLower
  let foundTerms := humanitiesTerms.filter (fun term => containsSub lowercaseText term.data)
  let words := capWordScan false text.data
  let uniqueWords := dedupFirst (words.map (fun w => String.mk (w.data.map Char.toLower)))
  (foundTerms ++ uniqueWords.take 3).take 5

/-- The `^[-*•]\s*` strip of the line-splitting fallback. -/
def stripBulletHead (cs : List Char) : List Char :=
  match cs with
  | c :: rest => if c = '-' || c = '*' || c = '•' then rest.dropWhile isSpaceCh else cs
  | [] => cs

/-- One line of the line-splitting fallback: strip a leading bullet, remove
all `"`, `[`, `]`, trim. -/
def cleanTopicLine (line : String) : String :=
  String.mk (jsTrimList
    ((stripBulletHead line.data).filter (fun c => !(c == '"' || c == '[' || c == ']'))))

/-- The branch taken when the reply holds no bracket span: split on newlines,
clean each line, keep lines longer than 2 characters, cap at 5. -/
def humanitiesLineFallback (content : String) : List String :=
  (((content.splitOn "\n").map cleanTopicLine).filter (fun t => 2 < t.length)).take 5

/-- Step 1 of `getRelevantHumanitiesArticles`: locate `/\[.*?\]/s` in the
reply; parse it (`JSON.parse` as an oracle), falling back to
`extractHumanitiesFallbackTopics` when parsing throws; without a span, use
the line-splitting fallback on the reply. -/
def extractTopicsFromReply (parseTopics : String → Option (List String))
    (reply userText : String) : List String :=
  match lazyBracketSpan reply with
  | some s =>
    match parseTopics s with
    | some ts => ts
    | none => extractHumanitiesFallbackTopics userText
  | none => humanitiesLineFallback reply

/-- The topic phase of `getRelevantHumanitiesArticles`: an empty topic list
throws `'No humanities research topics could be extracted from the text'`,
otherwise the pipeline proceeds to the search step with the topics. -/
def humanitiesTopicPhase (parseTopics : String → Option (List String))
    (reply userText : String) : Except String (List String) :=
  let topics := extractTopicsFromReply parseTopics reply userText
  if topics = [] then
    Except.error "No humanities research topics could be extracted from the text"
  else Except.ok topics

/-! ## Concrete fixtures used by counterexamples and witnesses -/

/-- A scored statistic candidate with the given text and score. -/
def mkScored (name : String) (q : ℚ) : ScoredItem :=
  { text := name
    context := "ctx"
    source := "src"
    position := "pos"
    type := EvidenceKind.statistic
    relevanceScore := q
    relevanceReason := "r" }

/-- Six candidates that all clear the default threshold. -/
def demo6 : List ScoredItem :=
  [mkScored "s1" (mkRat 9 10), mkScored "s2" (mkRat 9 10), mkScored "s3" (mkRat 9 10),
    mkScored "s4" (mkRat 9 10), mkScored "s5" (mkRat 9 10), mkScored "s6" (mkRat 9 10)]

/-- Candidates with mixed scores. -/
def demoMix : List ScoredItem :=
  [mkScored "m1" (mkRat 4 5), mkScored "m2" (mkRat 1 2), mkScored "m3" (mkRat 7 10),
    mkScored "m4" (mkRat 3 5)]

/-- A reply whose brace span is not valid JSON: `x{y}z`. -/
def replyMalformed : String := String.mk ['x', lbrace, 'y', rbrace, 'z']

/-- The brace span of `replyMalformed`. -/
def braceSpanY : String := String.mk [lbrace, 'y', rbrace]

/-- A source text containing the percentage pattern `42%`. -/
def srcPercent : String :=
  "In the survey, 42% of respondents agreed with the proposal."

/-- A lower-case English sentence with no humanities keyword and no
capitalized word. -/
def engLower : String :=
  "the cat sat on the mat because it was warm and it wanted to rest there for a while"

/-- A reply whose bracket span is not valid JSON. -/
def replyBadBracket : String := "topics: [oops]"

/-- A lower-case text containing the static keyword `ethics`. -/
def ethicsText : String := "an essay on the ethics of care"

/-- Paper with a DOI. -/
def paperA : Paper :=
  { title := "Memory and Trauma"
    authors := "A"
    abstract := "a1"
    url := "u1"
    doi := "10.1/alpha"
    source := "arXiv" }

/-- Paper sharing `paperA`'s DOI but with a different title. -/
def paperB : Paper :=
  { title := "Narrative Identity"
    authors := "B"
    abstract := "a2"
    url := "u2"
    doi := "10.1/alpha"
    source := "DOAJ" }

/-- Paper with no DOI sharing `paperB`'s title. -/
def paperC : Paper :=
  { title := "Narrative Identity"
    authors := "C"
    abstract := "a3"
    url := "u3"
    doi := ""
    source := "Semantic Scholar" }

/-- Oracles whose extraction reply has no brace span (so extraction yields
empty lists). -/
def oEmptyExtract : Oracles :=
  { analyzeReply := "no structure"
    parseIntent := fun _ => none
    extractReply := "nothing to see"
    parseExtract := fun _ => none
    scoreReply := fun _ => Except.error ()
    parseScore := fun _ => none
    recommendReply := "recommendation text" }

/-- A bare evidence candidate. -/
def e1 : EvidenceItem :=
  { text := "42%", context := "c1", source := "doc", position := "p1" }

/-- A second bare evidence candidate. -/
def e2 : EvidenceItem :=
  { text := "a quotable sentence", context := "c2", source := "doc", position := "p2" }

/-- `e1` tagged as a statistic. -/
def it0 : TypedItem := TypedItem.mk e1 EvidenceKind.statistic

/-- A parse oracle that always reports an explicit zero score. -/
def parseZero : String → Option ScoreReply := fun _ => some { score := some 0, reason := none }

/-- A scoring-call oracle that always replies with `replyMalformed` (which
does contain a lazy brace span). -/
def okMalformed : TypedItem → Except Unit String := fun _ => Except.ok replyMalformed

/-- The Boolean test `item.relevanceScore = s` (one score level; used to
state stability of the sort). -/
def scoreIs (s : ℚ) (y : ScoredItem) : Bool := decide (y.relevanceScore = s)

/-! # Theorems -/

/-! ## C1: the ranking-and-filtering step -/

theorem filter_orderedInsert_score (s : ℚ) (x : ScoredItem) (M : List ScoredItem) :
    (List.orderedInsert scoreGE x M).filter (scoreIs s)
      = if x.relevanceScore = s then x :: M.filter (scoreIs s)
        else M.filter (scoreIs s) := by
  induction M with
  | nil =>
    by_cases hx : x.relevanceScore = s <;>
      simp [List.orderedInsert, List.filter_cons, scoreIs, hx]
  | cons y ys ih =>
    by_cases hxy : scoreGE x y
    · rw [List.orderedInsert_of_le scoreGE ys hxy]
      by_cases hx : x.relevanceScore = s <;>
        simp [List.filter_cons, scoreIs, hx]
    · have hord : List.orderedInsert scoreGE x (y :: ys)
          = y :: List.orderedInsert scoreGE x ys := by
        simp [List.orderedInsert, hxy]
      rw [hord]
      by_cases hy : y.relevanceScore = s
      · by_cases hx : x.relevanceScore = s
        · exact absurd (show scoreGE x y by rw [scoreGE, hy, hx]) hxy
        · simp [List.filter_cons, scoreIs, hy, hx, ih]
      · simp [List.filter_cons, scoreIs, hy, ih]

theorem filter_insertionSort_score (s : ℚ) (L : List ScoredItem) :
    (List.insertionSort scoreGE L).filter (scoreIs s) = L.filter (scoreIs s) := by
  induction L with
  | nil => rfl
  | cons x xs ih =>
    show (List.orderedInsert scoreGE x (List.insertionSort scoreGE xs)).filter (scoreIs s)
      = _
    rw [filter_orderedInsert_score]
    by_cases hx : x.relevanceScore = s <;> simp [List.filter_cons, scoreIs, hx, ih]

/-- **C1 (amended).** The ranking-and-filtering step returns the first
`maxItems` of the candidates with `relevanceScore >= relevanceThreshold`,
stably sorted non-increasing by score: the sorted list is a permutation of
the threshold filter, it is sorted w.r.t. `scoreGE`, and at every score level
it agrees with the input order (stable tie-breaking); the returned list is
its `maxItems`-prefix. -/
theorem rankAndFilter_sorted_stable (l : List ScoredItem) (t : ℚ) (m : ℕ) :
    rankAndFilter l t m
        = (List.insertionSort scoreGE (l.filter (passesThreshold t))).take m
      ∧ (List.insertionSort scoreGE (l.filter (passesThreshold t))).Perm
          (l.filter (passesThreshold t))
      ∧ List.Sorted scoreGE (List.insertionSort scoreGE (l.filter (passesThreshold t)))
      ∧ ∀ s : ℚ,
          (List.insertionSort scoreGE (l.filter (passesThreshold t))).filter (scoreIs s)
            = (l.filter (passesThreshold t)).filter (scoreIs s) :=
  ⟨rfl, List.perm_insertionSort scoreGE _, List.sorted_insertionSort scoreGE _,
    fun s => filter_insertionSort_score s _⟩

/-- **C1 (counterexample).** With six candidates above the threshold and the
default maximum 5, the step returns only five of them: the output is not
"exactly the candidates with `relevanceScore >= relevanceThreshold`" — the
sixth qualifying candidate is dropped by the `slice(0, max)` truncation. -/
theorem rankAndFilter_truncation_cx :
    rankAndFilter demo6 (mkRat 3 5) 5
        = [mkScored "s1" (mkRat 9 10), mkScored "s2" (mkRat 9 10), mkScored "s3" (mkRat 9 10),
            mkScored "s4" (mkRat 9 10), mkScored "s5" (mkRat 9 10)]
      ∧ (demo6.filter (passesThreshold (mkRat 3 5))).length = 6
      ∧ passesThreshold (mkRat 3 5) (mkScored "s6" (mkRat 9 10)) = true
      ∧ mkScored "s6" (mkRat 9 10) ∉ rankAndFilter demo6 (mkRat 3 5) 5 := by
  refine ⟨?_, ?_, ?_, ?_⟩ <;> decide

/-! ## C5: threshold monotonicity -/

theorem orderedInsert_all_ge (x : ScoredItem) (N : List ScoredItem)
    (h : ∀ z, z ∈ N → scoreGE x z) :
    List.orderedInsert scoreGE x N = x :: N := by
  cases N with
  | nil => rfl
  | cons z zs => exact List.orderedInsert_of_le scoreGE zs (h z (List.mem_cons_self z zs))

theorem filter_orderedInsert_ge (t : ℚ) (x : ScoredItem) (M : List ScoredItem)
    (hs : List.Sorted scoreGE M) :
    (List.orderedInsert scoreGE x M).filter (passesThreshold t)
      = if passesThreshold t x = true then
          List.orderedInsert scoreGE x (M.filter (passesThreshold t))
        else M.filter (passesThreshold t) := by
  induction M with
  | nil =>
    by_cases px : passesThreshold t x = true <;>
      simp [List.orderedInsert, List.filter_cons, px]
  | cons y ys ih =>
    by_cases hxy : scoreGE x y
    · rw [List.orderedInsert_of_le scoreGE ys hxy]
      by_cases px : passesThreshold t x = true
      · by_cases py : passesThreshold t y = true
        · simp [List.filter_cons, px, py, List.orderedInsert_of_le scoreGE _ hxy]
        · have hall : ∀ z, z ∈ ys.filter (passesThreshold t) → scoreGE x z := by
            intro z hz
            have hzys : z ∈ ys := (List.mem_filter.mp hz).1
            have h1 : scoreGE y z := List.rel_of_sorted_cons hs z hzys
            exact le_trans h1 hxy
          simp [List.filter_cons, px, py, orderedInsert_all_ge x _ hall]
      · simp [List.filter_cons, px]
    · have hord : List.orderedInsert scoreGE x (y :: ys)
          = y :: List.orderedInsert scoreGE x ys := by
        simp [List.orderedInsert, hxy]
      rw [hord]
      have ihy := ih hs.of_cons
      by_cases px : passesThreshold t x = true
      · have py : passesThreshold t y = true := by
          have hx : t ≤ x.relevanceScore := by simpa [passesThreshold] using px
          have hyx : x.relevanceScore ≤ y.relevanceScore := le_of_not_le hxy
          simpa [passesThreshold] using le_trans hx hyx
        have hord2 : List.orderedInsert scoreGE x (y :: ys.filter (passesThreshold t))
            = y :: List.orderedInsert scoreGE x (ys.filter (passesThreshold t)) := by
          simp [List.orderedInsert, hxy]
        simp [List.filter_cons, py, ihy, px, hord2]
      · simp [List.filter_cons, ihy, px]

theorem insertionSort_filter_ge (t : ℚ) (L : List ScoredItem) :
    List.insertionSort scoreGE (L.filter (passesThreshold t))
      = (List.insertionSort scoreGE L).filter (passesThreshold t) := by
  induction L with
  | nil => rfl
  | cons x xs ih =>
    by_cases px : passesThreshold t x = true
    · rw [show (x :: xs).filter (passesThreshold t) = x :: xs.filter (passesThreshold t) by
        simp [List.filter_cons, px]]
      show List.orderedInsert scoreGE x
          (List.insertionSort scoreGE (xs.filter (passesThreshold t))) = _
      rw [ih,
        show List.insertionSort scoreGE (x :: xs)
          = List.orderedInsert scoreGE x (List.insertionSort scoreGE xs) from rfl,
        filter_orderedInsert_ge t x _ (List.sorted_insertionSort scoreGE xs), if_pos px]
    · rw [show (x :: xs).filter (passesThreshold t) = xs.filter (passesThreshold t) by
        simp [List.filter_cons, px]]
      rw [ih,
        show List.insertionSort scoreGE (x :: xs)
          = List.orderedInsert scoreGE x (List.insertionSort scoreGE xs) from rfl,
        filter_orderedInsert_ge t x _ (List.sorted_insertionSort scoreGE xs), if_neg px]

theorem sorted_filter_eq_takeWhile (t : ℚ) (L : List ScoredItem)
    (h : List.Sorted scoreGE L) :
    L.filter (passesThreshold t) = L.takeWhile (passesThreshold t) := by
  induction L with
  | nil => rfl
  | cons y ys ih =>
    by_cases py : passesThreshold t y = true
    · simp [List.filter_cons, List.takeWhile_cons, py, ih h.of_cons]
    · have hnil : ys.filter (passesThreshold t) = [] := by
        rw [List.filter_eq_nil_iff]
        intro z hz
        have h1 : scoreGE y z := List.rel_of_sorted_cons h z hz
        have hy : ¬ t ≤ y.relevanceScore := by simpa [passesThreshold] using py
        simp only [passesThreshold, decide_eq_true_eq]
        exact fun hc => hy (le_trans hc h1)
      simp [List.filter_cons, List.takeWhile_cons, py, hnil]

theorem takeWhile_as_take {α : Type} (p : α → Bool) (L : List α) :
    L.takeWhile p = L.take (L.takeWhile p).length := by
  induction L with
  | nil => rfl
  | cons a as ih =>
    by_cases pa : p a = true
    · simp only [List.takeWhile_cons, if_pos pa, List.length_cons, List.take_succ_cons]
      exact congrArg (a :: ·) ih
    · simp [List.takeWhile_cons, pa]

theorem mem_take_of_take_le {α : Type} {x : α} (L : List α) (j m : ℕ) (hjm : j ≤ m)
    (hx : x ∈ L.take j) : x ∈ L.take m := by
  have heq : L.take j = (L.take m).take j := by
    rw [List.take_take, inf_eq_left.mpr hjm]
  rw [heq] at hx
  exact List.take_subset j (L.take m) hx

/-- **C5.** For the same input and maximum, filtering with a strictly higher
threshold yields a subset of filtering with the lower one. -/
theorem rankAndFilter_threshold_subset (l : List ScoredItem) (t t' : ℚ) (m : ℕ)
    (h : t < t') : rankAndFilter l t' m ⊆ rankAndFilter l t m := by
  intro x hx
  have hAB : l.filter (passesThreshold t')
      = (l.filter (passesThreshold t)).filter (passesThreshold t') := by
    rw [List.filter_filter]
    apply List.filter_congr
    intro z _
    by_cases pz : passesThreshold t' z = true
    · have pzt : passesThreshold t z = true := by
        have h1 : t' ≤ z.relevanceScore := by simpa [passesThreshold] using pz
        simpa [passesThreshold] using le_trans (le_of_lt h) h1
      simp [pz, pzt]
    · simp [Bool.eq_false_iff.mpr pz]
  have key : rankAndFilter l t' m
      = ((List.insertionSort scoreGE (l.filter (passesThreshold t))).takeWhile
          (passesThreshold t')).take m := by
    show (List.insertionSort scoreGE (l.filter (passesThreshold t'))).take m = _
    rw [hAB, insertionSort_filter_ge,
      sorted_filter_eq_takeWhile t' _ (List.sorted_insertionSort scoreGE _)]
  rw [key] at hx
  set S := List.insertionSort scoreGE (l.filter (passesThreshold t)) with hS
  rw [takeWhile_as_take (passesThreshold t') S, List.take_take] at hx
  exact mem_take_of_take_le S _ m (inf_le_left) hx

/-- Witness for C5: a candidate retained at threshold 0.7 is also retained at
threshold 0.6. -/
theorem rankAndFilter_threshold_subset_w :
    mkScored "m1" (mkRat 4 5) ∈ rankAndFilter demoMix (mkRat 3 5) 5 :=
  rankAndFilter_threshold_subset demoMix (mkRat 3 5) (mkRat 7 10) 5 (by decide)
    (by decide)

/-! ## C6: output lengths are bounded by the per-kind maxima -/

/-- **C6.** Each of the two returned lists is no longer than its caller-given
maximum (`maxStats` / `maxQuotes`, whose defaults are 5), no matter how many
candidates pass the threshold. -/
theorem findRelevant_lengths_le (o : Oracles) (src : String) (opts : PipelineOptions) :
    (findRelevantQuotesAndStats o src opts).statistics.length ≤ opts.maxStats
      ∧ (findRelevantQuotesAndStats o src opts).quotes.length ≤ opts.maxQuotes
      ∧ ({} : PipelineOptions).maxStats = 5
      ∧ ({} : PipelineOptions).maxQuotes = 5 := by
  refine ⟨?_, ?_, rfl, rfl⟩ <;>
  · simp only [findRelevantQuotesAndStats]
    split
    · simp
    · simp only [rankAndFilter]
      exact List.length_take_le _ _

/-! ## C7: short-circuit on empty extraction -/

/-- **C7.** When extraction yields no statistics and no quotes, the pipeline
returns empty arrays plus the fixed message, and the result does not depend
on the scoring oracles at all (no relevance-scoring call is issued). -/
theorem findRelevant_short_circuit (o : Oracles) (src : String) (opts : PipelineOptions)
    (h1 : (extractFromSource o.parseExtract o.extractReply src).statistics = [])
    (h2 : (extractFromSource o.parseExtract o.extractReply src).quotes = []) :
    findRelevantQuotesAndStats o src opts
        = { userContext := analyzeUserNeeds o.parseIntent o.analyzeReply
            statistics := []
            quotes := []
            message := some "No statistics or quotes were found in the source file."
            recommendations := none }
      ∧ ∀ sc ps,
          findRelevantQuotesAndStats
              { o with scoreReply := sc, parseScore := ps } src opts
            = findRelevantQuotesAndStats o src opts := by
  constructor
  · simp only [findRelevantQuotesAndStats]
    rw [if_pos ⟨h1, h2⟩]
  · intro sc ps
    simp only [findRelevantQuotesAndStats]
    rw [if_pos ⟨h1, h2⟩, if_pos ⟨h1, h2⟩]

/-- Witness for C7 at concrete oracles: the short-circuit result, and
insensitivity to a change of the scoring oracles. -/
theorem findRelevant_short_circuit_w :
    findRelevantQuotesAndStats oEmptyExtract "short note" {}
        = { userContext := analyzeUserNeeds oEmptyExtract.parseIntent oEmptyExtract.analyzeReply
            statistics := []
            quotes := []
            message := some "No statistics or quotes were found in the source file."
            recommendations := none }
      ∧ findRelevantQuotesAndStats
            { oEmptyExtract with
              scoreReply := fun _ => Except.ok "ninety"
              parseScore := fun _ => some { score := some (mkRat 9 10), reason := some "why" } }
            "short note" {}
          = findRelevantQuotesAndStats oEmptyExtract "short note" {} :=
  ⟨(findRelevant_short_circuit oEmptyExtract "short note" {} (by decide) (by decide)).1,
    (findRelevant_short_circuit oEmptyExtract "short note" {} (by decide) (by decide)).2
      (fun _ => Except.ok "ninety")
      (fun _ => some { score := some (mkRat 9 10), reason := some "why" })⟩

/-! ## C8: neutral placeholders in intent analysis -/

/-- **C8 (amended).** A reply without a brace span yields the fixed neutral
placeholder with `mainArgument = "Could not determine main argument"`; a
brace span that fails to parse yields the fixed neutral placeholder with
`mainArgument = "Analysis unavailable"`.  Both carry the same generic
topic/evidence/gap placeholders and `audience = "general"`, and neither case
raises an error. -/
theorem analyzeUserNeeds_neutral (parseIntent : String → Option UserIntent)
    (reply : String) :
    (greedyBraceSpan reply = none → analyzeUserNeeds parseIntent reply = intentNoJson)
      ∧ (∀ s, greedyBraceSpan reply = some s → parseIntent s = none →
          analyzeUserNeeds parseIntent reply = intentBadJson)
      ∧ intentNoJson.mainArgument = "Could not determine main argument"
      ∧ intentBadJson.mainArgument = "Analysis unavailable"
      ∧ intentNoJson.audience = "general" ∧ intentBadJson.audience = "general"
      ∧ intentBadJson.keyTopics = intentNoJson.keyTopics
      ∧ intentBadJson.evidenceNeeds = intentNoJson.evidenceNeeds
      ∧ intentBadJson.gaps = intentNoJson.gaps := by
  refine ⟨?_, ?_, rfl, rfl, rfl, rfl, rfl, rfl, rfl⟩
  · intro h
    simp [analyzeUserNeeds, h]
  · intro s hs hp
    simp [analyzeUserNeeds, hs, hp]

/-- **C8 (counterexample).** On a reply whose located brace span is malformed
JSON, `analyzeUserNeeds` returns `mainArgument = "Analysis unavailable"` —
not `"Could not determine main argument"` as the claim states for the
malformed case. -/
theorem analyzeUserNeeds_cx :
    (analyzeUserNeeds (fun _ => none) replyMalformed).mainArgument
        = "Analysis unavailable"
      ∧ (analyzeUserNeeds (fun _ => none) replyMalformed).mainArgument
        ≠ "Could not determine main argument" := by
  refine ⟨?_, ?_⟩ <;> decide

/-- Witness for C8 at concrete replies: both fallback branches. -/
theorem analyzeUserNeeds_neutral_w :
    analyzeUserNeeds (fun _ => none) "plain text" = intentNoJson
      ∧ analyzeUserNeeds (fun _ => none) replyMalformed = intentBadJson :=
  ⟨(analyzeUserNeeds_neutral (fun _ => none) "plain text").1 (by decide),
    (analyzeUserNeeds_neutral (fun _ => none) replyMalformed).2.1 braceSpanY (by decide) rfl⟩

/-! ## C2: per-candidate failure isolation in scoring -/

theorem scoreIndividualItem_type (score : TypedItem → Except Unit String)
    (parseScore : String → Option ScoreReply) (it : TypedItem) :
    (scoreIndividualItem score parseScore it).type = it.type := by
  cases hsc : score it with
  | error e => simp [scoreIndividualItem, hsc, defaultScored]
  | ok content =>
    cases hsp : lazyBraceSpan content with
    | none => simp [scoreIndividualItem, hsc, hsp, defaultScored]
    | some s =>
      cases hp : parseScore s with
      | none => simp [scoreIndividualItem, hsc, hsp, hp, defaultScored]
      | some r => simp [scoreIndividualItem, hsc, hsp, hp]

theorem scoreIndividualItem_fail_error (score : TypedItem → Except Unit String)
    (parseScore : String → Option ScoreReply) (it : TypedItem)
    (h : score it = Except.error ()) :
    scoreIndividualItem score parseScore it = defaultScored it := by
  simp [scoreIndividualItem, h]

theorem scoreIndividualItem_fail_parse (score : TypedItem → Except Unit String)
    (parseScore : String → Option ScoreReply) (it : TypedItem) (r : String)
    (h : score it = Except.ok r)
    (hp : ∀ s, lazyBraceSpan r = some s → parseScore s = none) :
    scoreIndividualItem score parseScore it = defaultScored it := by
  cases hsp : lazyBraceSpan r with
  | none => simp [scoreIndividualItem, h, hsp]
  | some s => simp [scoreIndividualItem, h, hsp, hp s hsp]

/-- **C2.** Scoring maps each tagged input candidate to exactly one output
candidate (so the two output lists have exactly the input lengths, and each
output entry depends only on its own candidate's call); a candidate whose
call throws, or whose reply has no parsable brace span, comes out as the
neutral default `{relevanceScore: 0.5, relevanceReason: "Could not determine
relevance"}` without affecting any sibling. -/
theorem scoreContentRelevance_isolated (score : TypedItem → Except Unit String)
    (parseScore : String → Option ScoreReply) (ec : ExtractedContent) :
    (scoreContentRelevance score parseScore ec).1
        = (ec.statistics.map (fun it => TypedItem.mk it EvidenceKind.statistic)).map
            (scoreIndividualItem score parseScore)
      ∧ (scoreContentRelevance score parseScore ec).2
        = (ec.quotes.map (fun it => TypedItem.mk it EvidenceKind.quote)).map
            (scoreIndividualItem score parseScore)
      ∧ (scoreContentRelevance score parseScore ec).1.length = ec.statistics.length
      ∧ (scoreContentRelevance score parseScore ec).2.length = ec.quotes.length
      ∧ (∀ it, score it = Except.error () →
          scoreIndividualItem score parseScore it = defaultScored it)
      ∧ (∀ it r, score it = Except.ok r →
          (∀ s, lazyBraceSpan r = some s → parseScore s = none) →
          scoreIndividualItem score parseScore it = defaultScored it)
      ∧ ∀ it, (defaultScored it).relevanceScore = mkRat 1 2
          ∧ (defaultScored it).relevanceReason = "Could not determine relevance" := by
  have hA : ∀ y ∈ (ec.statistics.map (fun it => TypedItem.mk it EvidenceKind.statistic)).map
      (scoreIndividualItem score parseScore), (y.type == EvidenceKind.statistic) = true := by
    intro y hy
    rcases List.mem_map.mp hy with ⟨z, hz, rfl⟩
    rcases List.mem_map.mp hz with ⟨w, _, rfl⟩
    simp [scoreIndividualItem_type]
  have hB : ∀ y ∈ (ec.quotes.map (fun it => TypedItem.mk it EvidenceKind.quote)).map
      (scoreIndividualItem score parseScore), ¬ (y.type == EvidenceKind.statistic) = true := by
    intro y hy
    rcases List.mem_map.mp hy with ⟨z, hz, rfl⟩
    rcases List.mem_map.mp hz with ⟨w, _, rfl⟩
    simp [scoreIndividualItem_type]
  have hA2 : ∀ y ∈ (ec.statistics.map (fun it => TypedItem.mk it EvidenceKind.statistic)).map
      (scoreIndividualItem score parseScore), ¬ (y.type == EvidenceKind.quote) = true := by
    intro y hy
    rcases List.mem_map.mp hy with ⟨z, hz, rfl⟩
    rcases List.mem_map.mp hz with ⟨w, _, rfl⟩
    simp [scoreIndividualItem_type]
  have hB2 : ∀ y ∈ (ec.quotes.map (fun it => TypedItem.mk it EvidenceKind.quote)).map
      (scoreIndividualItem score parseScore), (y.type == EvidenceKind.quote) = true := by
    intro y hy
    rcases List.mem_map.mp hy with ⟨z, hz, rfl⟩
    rcases List.mem_map.mp hz with ⟨w, _, rfl⟩
    simp [scoreIndividualItem_type]
  have h1 : (scoreContentRelevance score parseScore ec).1
      = (ec.statistics.map (fun it => TypedItem.mk it EvidenceKind.statistic)).map
          (scoreIndividualItem score parseScore) := by
    simp only [scoreContentRelevance, List.map_append, List.filter_append]
    rw [List.filter_eq_self.mpr hA, List.filter_eq_nil_iff.mpr hB, List.append_nil]
  have h2 : (scoreContentRelevance score parseScore ec).2
      = (ec.quotes.map (fun it => TypedItem.mk it EvidenceKind.quote)).map
          (scoreIndividualItem score parseScore) := by
    simp only [scoreContentRelevance, List.map_append, List.filter_append]
    rw [List.filter_eq_self.mpr hB2, List.filter_eq_nil_iff.mpr hA2, List.nil_append]
  refine ⟨h1, h2, ?_, ?_, scoreIndividualItem_fail_error score parseScore,
    scoreIndividualItem_fail_parse score parseScore, fun it => ⟨rfl, rfl⟩⟩
  · rw [h1]
    simp
  · rw [h2]
    simp

/-- Witness for C2: a failing call yields the default on its own candidate,
and the batch sizes are preserved. -/
theorem scoreContentRelevance_isolated_w :
    scoreIndividualItem (fun _ => Except.error ()) (fun _ => none) it0
        = defaultScored it0
      ∧ (scoreContentRelevance (fun _ => Except.error ()) (fun _ => none)
          { statistics := [e1], quotes := [e2] }).1.length = 1
      ∧ (scoreContentRelevance (fun _ => Except.error ()) (fun _ => none)
          { statistics := [e1], quotes := [e2] }).2.length = 1 :=
  ⟨(scoreContentRelevance_isolated (fun _ => Except.error ()) (fun _ => none)
      { statistics := [e1], quotes := [e2] }).2.2.2.2.1 it0 rfl,
    (scoreContentRelevance_isolated (fun _ => Except.error ()) (fun _ => none)
      { statistics := [e1], quotes := [e2] }).2.2.1,
    (scoreContentRelevance_isolated (fun _ => Except.error ()) (fun _ => none)
      { statistics := [e1], quotes := [e2] }).2.2.2.1⟩

/-! ## C10: a falsy score field is replaced by 0.5 -/

/-- **C10.** The scorer never outputs `relevanceScore = 0`: on a parsed reply
the output score is `result.score || 0.5`, which replaces an absent or
explicitly-zero score by 0.5 and passes any non-zero (truthy) score through;
every other path yields the 0.5 default. -/
theorem scoreIndividualItem_never_zero (score : TypedItem → Except Unit String)
    (parseScore : String → Option ScoreReply) (it : TypedItem) :
    (scoreIndividualItem score parseScore it).relevanceScore ≠ 0
      ∧ (∀ r s rep, score it = Except.ok r → lazyBraceSpan r = some s →
          parseScore s = some rep →
          (scoreIndividualItem score parseScore it).relevanceScore = jsOrScore rep.score)
      ∧ jsOrScore (some 0) = mkRat 1 2
      ∧ jsOrScore none = mkRat 1 2
      ∧ ∀ q : ℚ, q ≠ 0 → jsOrScore (some q) = q := by
  have hhalf : (mkRat 1 2 : ℚ) ≠ 0 := by decide
  have hjs : ∀ o : Option ℚ, jsOrScore o ≠ 0 := by
    intro o
    cases o with
    | none => exact hhalf
    | some s =>
      by_cases h0 : s = 0
      · simp [jsOrScore, h0]
      · simp [jsOrScore, h0]
  refine ⟨?_, ?_, by simp [jsOrScore], rfl, fun q hq => by simp [jsOrScore, hq]⟩
  · cases hsc : score it with
    | error e => simp [scoreIndividualItem, hsc, defaultScored]
    | ok content =>
      cases hsp : lazyBraceSpan content with
      | none => simp [scoreIndividualItem, hsc, hsp, defaultScored]
      | some s =>
        cases hp : parseScore s with
        | none => simp [scoreIndividualItem, hsc, hsp, hp, defaultScored]
        | some r => simpa [scoreIndividualItem, hsc, hsp, hp] using hjs r.score
  · intro r s rep h1 h2 h3
    simp [scoreIndividualItem, h1, h2, h3]

/-- Witness for C10: a reply parsing to an explicit zero score leaves the
candidate at 0.5, not 0. -/
theorem scoreIndividualItem_never_zero_w :
    (scoreIndividualItem okMalformed parseZero it0).relevanceScore ≠ 0
      ∧ (scoreIndividualItem okMalformed parseZero it0).relevanceScore
          = jsOrScore (some 0) :=
  ⟨(scoreIndividualItem_never_zero okMalformed parseZero it0).1,
    (scoreIndividualItem_never_zero okMalformed parseZero it0).2.1 replyMalformed
      braceSpanY { score := some 0, reason := none } rfl (by decide) rfl⟩

/-! ## C3: fallback extraction -/

theorem percentLen_digit_percent (c : Char) (rest : List Char)
    (hd : isDigitCh c = true) :
    percentLen (c :: '%' :: rest) = some 2 := by
  have hpc : isDigitCh '%' = false := by decide
  have h1 : digitSpan (c :: '%' :: rest) = 1 := by
    simp [digitSpan, List.takeWhile_cons, hd, hpc]
  simp [percentLen, numConsumes, h1, tryConsumes]

theorem scanWith_percent_ne_nil (s : List Char) (h : hasPercentPairB s = true) :
    ∀ i, scanWith percentLen i s ≠ [] := by
  induction s with
  | nil => simp [hasPercentPairB] at h
  | cons c cs ih =>
    intro i
    cases hm : percentLen (c :: cs) with
    | some k =>
      rw [scanWith, hm]
      simp
    | none =>
      cases cs with
      | nil => simp [hasPercentPairB] at h
      | cons d rest =>
        rw [scanWith, hm]
        apply ih
        have h' : (isDigitCh c = true ∧ d = '%') ∨ hasPercentPairB (d :: rest) = true := by
          simpa [hasPercentPairB] using h
        rcases h' with ⟨hc, hd'⟩ | h2
        · rw [hd'] at hm
          rw [percentLen_digit_percent c rest hc] at hm
          cases hm
        · exact h2

/-- **C3 (amended).** When the extraction reply contains a brace span that
fails to parse as JSON, `extractFromSource` falls back to the pattern
extractor, and a source text containing a percentage pattern then yields at
least one statistic candidate with `source = "Pattern extraction"`; but when
the reply contains no brace span at all, `extractFromSource` returns empty
lists without invoking the fallback. -/
theorem extractFromSource_fallback (parseExtract : String → Option ExtractedContent)
    (reply sourceText : String) :
    (∀ s, greedyBraceSpan reply = some s → parseExtract s = none →
        extractFromSource parseExtract reply sourceText = extractFallback sourceText)
      ∧ (hasPercentPairB sourceText.data = true →
          ((extractFallback sourceText).statistics.any
              (fun itm => itm.source == "Pattern extraction")) = true
            ∧ (extractFallback sourceText).statistics ≠ [])
      ∧ (greedyBraceSpan reply = none →
          extractFromSource parseExtract reply sourceText
            = { statistics := [], quotes := [] }) := by
  refine ⟨?_, ?_, ?_⟩
  · intro s hs hp
    simp [extractFromSource, hs, hp]
  · intro h
    have hne := scanWith_percent_ne_nil sourceText.data h 0
    constructor
    · rw [List.any_eq_true]
      obtain ⟨p, hp⟩ := List.exists_mem_of_ne_nil _ hne
      refine ⟨mkStatItem sourceText.data p, ?_, ?_⟩
      · simp only [extractFallback]
        exact List.mem_append_left _ (List.mem_append_left _
          (List.mem_append_left _ (List.mem_map_of_mem _ hp)))
      · simp [mkStatItem]
    · simp only [extractFallback]
      intro hc
      rw [List.append_eq_nil, List.append_eq_nil, List.append_eq_nil] at hc
      exact hne (List.map_eq_nil_iff.mp hc.1.1.1)
  · intro h
    simp [extractFromSource, h]

/-- **C3 (counterexample).** A reply with no brace span cannot be parsed as
JSON either, yet `extractFromSource` returns empty candidate lists rather
than invoking the fallback — although the source text contains the
percentage pattern `42%`, no statistic with `source = "Pattern extraction"`
is produced. -/
theorem extractFromSource_cx :
    extractFromSource (fun _ => none) "The reply could not be parsed" srcPercent
        = { statistics := [], quotes := [] }
      ∧ hasPercentPairB srcPercent.data = true
      ∧ ((extractFromSource (fun _ => none) "The reply could not be parsed"
            srcPercent).statistics.any (fun itm => itm.source == "Pattern extraction"))
          = false := by
  refine ⟨?_, ?_, ?_⟩ <;> decide

/-- Witness for C3 at a concrete malformed-span reply and a concrete source
with a percentage. -/
theorem extractFromSource_fallback_w :
    extractFromSource (fun _ => none) replyMalformed srcPercent
        = extractFallback srcPercent
      ∧ ((extractFallback srcPercent).statistics.any
          (fun itm => itm.source == "Pattern extraction")) = true
      ∧ (extractFallback srcPercent).statistics ≠ [] :=
  ⟨(extractFromSource_fallback (fun _ => none) replyMalformed srcPercent).1
      braceSpanY (by decide) rfl,
    ((extractFromSource_fallback (fun _ => none) replyMalformed srcPercent).2.1
      (by decide)).1,
    ((extractFromSource_fallback (fun _ => none) replyMalformed srcPercent).2.1
      (by decide)).2⟩

/-! ## C4: paper deduplication -/

theorem removeDuplicatePapersAux_eq_dedupRef (ps : List Paper) :
    ∀ (R : List Paper) (seenT seenD : List String),
      (∀ tt, tt ∈ seenT ↔ ∃ q ∈ R, normalizeTitle q.title = tt) →
      (∀ dd, dd ∈ seenD ↔ ∃ q ∈ R, q.doi = dd ∧ q.doi ≠ "") →
      removeDuplicatePapersAux ps seenT seenD = dedupRef R ps := by
  induction ps with
  | nil =>
    intro R seenT seenD _ _
    rfl
  | cons p ps ih =>
    intro R seenT seenD hT hD
    have hcond : ((p.doi != "" && seenD.contains p.doi) = true
          ∨ seenT.contains (normalizeTitle p.title) = true)
        ↔ R.any (fun q => conflictB q p) = true := by
      simp only [List.any_eq_true, conflictB, Bool.or_eq_true, Bool.and_eq_true,
        bne_iff_ne, beq_iff_eq]
      constructor
      · rintro (⟨hne, hc⟩ | hc)
        · have hmem : p.doi ∈ seenD := by simpa using hc
          obtain ⟨q, hq, hqd, _⟩ := (hD p.doi).mp hmem
          exact ⟨q, hq, Or.inl ⟨hne, hqd⟩⟩
        · have hmem : normalizeTitle p.title ∈ seenT := by simpa using hc
          obtain ⟨q, hq, hqt⟩ := (hT _).mp hmem
          exact ⟨q, hq, Or.inr hqt⟩
      · rintro ⟨q, hq, ⟨hne, hqd⟩ | hqt⟩
        · refine Or.inl ⟨hne, ?_⟩
          have : p.doi ∈ seenD := (hD p.doi).mpr ⟨q, hq, hqd, by rw [hqd]; exact hne⟩
          simpa using this
        · refine Or.inr ?_
          have : normalizeTitle p.title ∈ seenT := (hT _).mpr ⟨q, hq, hqt⟩
          simpa using this
    by_cases hany : R.any (fun q => conflictB q p) = true
    · rw [show dedupRef R (p :: ps) = dedupRef R ps by simp [dedupRef, hany]]
      by_cases hb1 : (p.doi != "" && seenD.contains p.doi) = true
      · simp only [removeDuplicatePapersAux]
        rw [if_pos hb1]
        exact ih R seenT seenD hT hD
      · have hb2 : seenT.contains (normalizeTitle p.title) = true := by
          rcases hcond.mpr hany with h | h
          · exact absurd h hb1
          · exact h
        simp only [removeDuplicatePapersAux]
        rw [if_neg hb1, if_pos hb2]
        exact ih R seenT seenD hT hD
    · have hb1 : ¬ (p.doi != "" && seenD.contains p.doi) = true := by
        intro hc
        exact hany (hcond.mp (Or.inl hc))
      have hb2 : ¬ seenT.contains (normalizeTitle p.title) = true := by
        intro hc
        exact hany (hcond.mp (Or.inr hc))
      rw [show dedupRef R (p :: ps) = p :: dedupRef (R ++ [p]) ps by
        simp [dedupRef, hany]]
      simp only [removeDuplicatePapersAux]
      rw [if_neg hb1, if_neg hb2]
      have hT' : ∀ tt, tt ∈ normalizeTitle p.title :: seenT
          ↔ ∃ q ∈ R ++ [p], normalizeTitle q.title = tt := by
        intro tt
        constructor
        · rintro h
          rcases List.mem_cons.mp h with rfl | htt
          · exact ⟨p, List.mem_append_right _ (List.mem_singleton_self p), rfl⟩
          · obtain ⟨q, hq, hqt⟩ := (hT tt).mp htt
            exact ⟨q, List.mem_append_left _ hq, hqt⟩
        · rintro ⟨q, hq, hqt⟩
          rcases List.mem_append.mp hq with hqR | hqp
          · exact List.mem_cons_of_mem _ ((hT tt).mpr ⟨q, hqR, hqt⟩)
          · rw [List.mem_singleton.mp hqp] at hqt
            exact List.mem_cons.mpr (Or.inl hqt.symm)
      have hD' : ∀ dd, dd ∈ (if p.doi != "" then p.doi :: seenD else seenD)
          ↔ ∃ q ∈ R ++ [p], q.doi = dd ∧ q.doi ≠ "" := by
        intro dd
        by_cases hdoi : (p.doi != "") = true
        · rw [if_pos hdoi]
          constructor
          · intro h
            rcases List.mem_cons.mp h with rfl | hdd
            · exact ⟨p, List.mem_append_right _ (List.mem_singleton_self p),
                rfl, bne_iff_ne.mp hdoi⟩
            · obtain ⟨q, hq, hqd, hqne⟩ := (hD dd).mp hdd
              exact ⟨q, List.mem_append_left _ hq, hqd, hqne⟩
          · rintro ⟨q, hq, hqd, hqne⟩
            rcases List.mem_append.mp hq with hqR | hqp
            · exact List.mem_cons_of_mem _ ((hD dd).mpr ⟨q, hqR, hqd, hqne⟩)
            · rw [List.mem_singleton.mp hqp] at hqd
              exact List.mem_cons.mpr (Or.inl hqd.symm)
        · rw [if_neg hdoi]
          have hpe : p.doi = "" := by simpa using hdoi
          constructor
          · intro h
            obtain ⟨q, hq, hqd, hqne⟩ := (hD dd).mp h
            exact ⟨q, List.mem_append_left _ hq, hqd, hqne⟩
          · rintro ⟨q, hq, hqd, hqne⟩
            rcases List.mem_append.mp hq with hqR | hqp
            · exact (hD dd).mpr ⟨q, hqR, hqd, hqne⟩
            · rw [List.mem_singleton.mp hqp] at hqd hqne
              exact absurd hpe hqne
      rw [ih (R ++ [p]) _ _ hT' hD']

theorem removeDuplicatePapers_eq_dedupRef (l : List Paper) :
    removeDuplicatePapers l = dedupRef [] l :=
  removeDuplicatePapersAux_eq_dedupRef l [] [] [] (by simp) (by simp)

theorem dedupRef_append (xs : List Paper) :
    ∀ (R ys : List Paper),
      dedupRef R (xs ++ ys) = dedupRef R xs ++ dedupRef (R ++ dedupRef R xs) ys := by
  induction xs with
  | nil =>
    intro R ys
    simp [dedupRef]
  | cons x xs ih =>
    intro R ys
    by_cases hc : R.any (fun q => conflictB q x) = true
    · rw [show dedupRef R (x :: xs ++ ys) = dedupRef R (xs ++ ys) by
        simp [dedupRef, hc]]
      rw [show dedupRef R (x :: xs) = dedupRef R xs by simp [dedupRef, hc]]
      exact ih R ys
    · rw [show dedupRef R (x :: xs ++ ys) = x :: dedupRef (R ++ [x]) (xs ++ ys) by
        simp [dedupRef, hc]]
      rw [show dedupRef R (x :: xs) = x :: dedupRef (R ++ [x]) xs by
        simp [dedupRef, hc]]
      rw [ih (R ++ [x]) ys]
      simp [List.cons_append, List.append_assoc]

theorem dedupRef_sublist (l : List Paper) : ∀ R, (dedupRef R l).Sublist l := by
  induction l with
  | nil =>
    intro R
    simp [dedupRef]
  | cons x xs ih =>
    intro R
    by_cases hc : R.any (fun q => conflictB q x) = true
    · rw [show dedupRef R (x :: xs) = dedupRef R xs by simp [dedupRef, hc]]
      exact (ih R).cons x
    · rw [show dedupRef R (x :: xs) = x :: dedupRef (R ++ [x]) xs by
        simp [dedupRef, hc]]
      exact (ih (R ++ [x])).cons₂ x

/-- **C4 (amended).** A paper is dropped exactly when an earlier *retained*
paper has the same non-empty DOI or the same normalized title: if some
retained paper of the prefix clashes with `p` the occurrence of `p` is
dropped (the result equals that of the list without it), otherwise `p` is
retained immediately after the retained papers of the prefix; retained
papers always keep their original relative order (sublist). -/
theorem removeDuplicatePapers_spec (l1 : List Paper) (p : Paper) (l2 : List Paper) :
    ((removeDuplicatePapers l1).any (fun q => conflictB q p) = true →
        removeDuplicatePapers (l1 ++ p :: l2) = removeDuplicatePapers (l1 ++ l2))
      ∧ ((removeDuplicatePapers l1).any (fun q => conflictB q p) = false →
          removeDuplicatePapers (l1 ++ p :: l2)
            = removeDuplicatePapers l1
                ++ p :: dedupRef (removeDuplicatePapers l1 ++ [p]) l2)
      ∧ (removeDuplicatePapers (l1 ++ p :: l2)).Sublist (l1 ++ p :: l2) := by
  refine ⟨?_, ?_, ?_⟩
  · intro h
    rw [removeDuplicatePapers_eq_dedupRef] at h
    rw [removeDuplicatePapers_eq_dedupRef, removeDuplicatePapers_eq_dedupRef,
      dedupRef_append l1, dedupRef_append l1]
    congr 1
    simp only [List.nil_append]
    simp [dedupRef, h]
  · intro h
    rw [removeDuplicatePapers_eq_dedupRef] at h
    rw [removeDuplicatePapers_eq_dedupRef (l1 ++ p :: l2),
      removeDuplicatePapers_eq_dedupRef l1, dedupRef_append l1]
    simp only [List.nil_append]
    rw [show dedupRef (dedupRef [] l1) (p :: l2)
        = p :: dedupRef (dedupRef [] l1 ++ [p]) l2 by simp [dedupRef, h]]
  · rw [removeDuplicatePapers_eq_dedupRef]
    exact dedupRef_sublist _ []

/-- **C4 (counterexample).** `paperB` occurs earlier than `paperC` and has
the same normalized title, yet `paperC` is retained: `paperB` itself was
dropped (by `paperA`'s DOI), so its title never entered the seen set.  A
paper is therefore not dropped merely because "an earlier paper in the list"
shares its key. -/
theorem removeDuplicatePapers_cx :
    removeDuplicatePapers [paperA, paperB, paperC] = [paperA, paperC]
      ∧ normalizeTitle paperB.title = normalizeTitle paperC.title
      ∧ paperB.doi = paperA.doi ∧ paperB ≠ paperC := by
  refine ⟨?_, ?_, ?_, ?_⟩ <;> decide

/-- Witness for C4 at concrete papers: the drop branch, the keep branch and
the order-preservation part. -/
theorem removeDuplicatePapers_spec_w :
    removeDuplicatePapers ([paperA] ++ paperB :: [paperC])
        = removeDuplicatePapers ([paperA] ++ [paperC])
      ∧ removeDuplicatePapers ([paperA, paperB] ++ paperC :: [])
          = removeDuplicatePapers [paperA, paperB]
              ++ paperC :: dedupRef (removeDuplicatePapers [paperA, paperB] ++ [paperC]) []
      ∧ (removeDuplicatePapers ([paperA] ++ paperB :: [paperC])).Sublist
          ([paperA] ++ paperB :: [paperC]) :=
  ⟨(removeDuplicatePapers_spec [paperA] paperB [paperC]).1 (by decide),
    (removeDuplicatePapers_spec [paperA, paperB] paperC []).2.1 (by decide),
    (removeDuplicatePapers_spec [paperA] paperB [paperC]).2.2⟩

/-! ## C9: humanities fallback topics -/

theorem take_succ_ne_nil {α : Type} (n : ℕ) (l : List α) (h : l ≠ []) :
    l.take (n + 1) ≠ [] := by
  cases l with
  | nil => exact absurd rfl h
  | cons a as => simp [List.take_succ_cons]

theorem capWordScan_no_upper (s : List Char) (h : ∀ c ∈ s, isUpperCh c = false) :
    ∀ b, capWordScan b s = [] := by
  induction s with
  | nil =>
    intro b
    rw [capWordScan]
  | cons c cs ih =>
    intro b
    rw [capWordScan, h c (List.mem_cons_self c cs)]
    simp only [Bool.and_false, Bool.false_eq_true, if_false]
    exact ih (fun d hd => h d (List.mem_cons_of_mem c hd)) (isWordCh c)

/-- **C9 (amended).** When the topic reply's bracket span fails to parse,
step 1 uses `extractHumanitiesFallbackTopics`; the fallback always has at
most 5 terms and is non-empty whenever the text contains a static humanities
keyword (case-insensitively) or a capitalized word of at least five letters;
whenever the resulting topic list is non-empty, the phase returns `ok` and
the pipeline proceeds to the search step. -/
theorem humanitiesFallback_spec (parseTopics : String → Option (List String))
    (reply userText : String) :
    (∀ s, lazyBracketSpan reply = some s → parseTopics s = none →
        extractTopicsFromReply parseTopics reply userText
          = extractHumanitiesFallbackTopics userText)
      ∧ (extractHumanitiesFallbackTopics userText).length ≤ 5
      ∧ (humanitiesTerms.any
            (fun term => containsSub (userText.data.map Char.toLower) term.data) = true
            ∨ capWordScan false userText.data ≠ [] →
          extractHumanitiesFallbackTopics userText ≠ [])
      ∧ (extractTopicsFromReply parseTopics reply userText ≠ [] →
          humanitiesTopicPhase parseTopics reply userText
            = Except.ok (extractTopicsFromReply parseTopics reply userText)) := by
  refine ⟨?_, ?_, ?_, ?_⟩
  · intro s hs hp
    simp [extractTopicsFromReply, hs, hp]
  · simp only [extractHumanitiesFallbackTopics]
    exact List.length_take_le _ _
  · intro h
    simp only [extractHumanitiesFallbackTopics]
    have main : humanitiesTerms.filter
          (fun term => containsSub (userText.data.map Char.toLower) term.data)
        ++ (dedupFirst ((capWordScan false userText.data).map
            (fun w => String.mk (w.data.map Char.toLower)))).take 3 ≠ [] := by
      intro hc
      rw [List.append_eq_nil] at hc
      rcases h with h1 | h2
      · obtain ⟨x, hx, hpx⟩ := List.any_eq_true.mp h1
        have hmem : x ∈ humanitiesTerms.filter
            (fun term => containsSub (userText.data.map Char.toLower) term.data) :=
          List.mem_filter.mpr ⟨hx, hpx⟩
        rw [hc.1] at hmem
        cases hmem
      · cases hw : (capWordScan false userText.data).map
            (fun w => String.mk (w.data.map Char.toLower)) with
        | nil => exact h2 (List.map_eq_nil_iff.mp hw)
        | cons a as =>
          have hdd : dedupFirst (a :: as) = a :: dedupFirst (as.filter (fun y => !(y == a))) := by
            rw [dedupFirst]
          rw [hw, hdd] at hc
          exact take_succ_ne_nil 2 _ (List.cons_ne_nil a _) hc.2
    exact take_succ_ne_nil 4 _ main
  · intro h
    simp [humanitiesTopicPhase, h]

/-- **C9 (counterexample).** A reasonable-length, all-lower-case English
sentence with no humanities keyword makes the fallback return the empty
list, and the topic phase then raises `'No humanities research topics could
be extracted from the text'` instead of proceeding to the search step. -/
theorem humanitiesFallback_cx :
    extractHumanitiesFallbackTopics engLower = []
      ∧ humanitiesTopicPhase (fun _ => none) replyBadBracket engLower
        = Except.error "No humanities research topics could be extracted from the text" := by
  have hcap : capWordScan false engLower.data = [] := by
    apply capWordScan_no_upper
    decide
  have hterms : humanitiesTerms.filter
      (fun term => containsSub (engLower.data.map Char.toLower) term.data) = [] := by
    decide
  have hmain : extractHumanitiesFallbackTopics engLower = [] := by
    simp only [extractHumanitiesFallbackTopics, hcap, hterms]
    rw [show dedupFirst (([] : List String).map (fun w => String.mk (w.data.map Char.toLower)))
        = [] from by rw [List.map_nil, dedupFirst]]
    rfl
  have hspan : lazyBracketSpan replyBadBracket = some "[oops]" := by decide
  have hstep : extractTopicsFromReply (fun _ => none) replyBadBracket engLower
      = extractHumanitiesFallbackTopics engLower := by
    simp [extractTopicsFromReply, hspan]
  refine ⟨hmain, ?_⟩
  simp [humanitiesTopicPhase, hstep, hmain]

/-- Witness for C9 on a text containing the keyword `ethics`: the fallback
is used, bounded by 5, non-empty, and the phase proceeds. -/
theorem humanitiesFallback_spec_w :
    extractTopicsFromReply (fun _ => none) replyBadBracket ethicsText
        = extractHumanitiesFallbackTopics ethicsText
      ∧ (extractHumanitiesFallbackTopics ethicsText).length ≤ 5
      ∧ extractHumanitiesFallbackTopics ethicsText ≠ []
      ∧ humanitiesTopicPhase (fun _ => none) replyBadBracket ethicsText
          = Except.ok (extractTopicsFromReply (fun _ => none) replyBadBracket ethicsText) := by
  have h := humanitiesFallback_spec (fun _ => none) replyBadBracket ethicsText
  have h1 := h.1 "[oops]" (by decide) rfl
  have h3 := h.2.2.1 (Or.inl (by decide))
  exact ⟨h1, h.2.1, h3, h.2.2.2 (by rw [h1]; exact h3)⟩
